import Mathlib

/-!
# Verification of the ComfyUI batch processor core

Shallow embedding of `comfyui_batch_processor_v2.py` and proofs about it.
The embedding models, from the source:

* `parse_prompt_file` (lines 53-92): the line parser for the custom
  format, over lines represented as `List Char`;
* `update_workflow_prompt` (lines 103-111): the workflow materializer,
  over a JSON value model (value semantics), plus a heap-level model of
  the same code used to reason about instance independence of
  `load_workflow` / `json.load` (lines 94-101);
* `queue_prompt` / `wait_for_completion` / the per-unit body of
  `process_prompts` (lines 113-185): the submit-and-poll state machine;
* `process_prompts` (lines 144-188): the batch tally loop.

Stateful or effectful pieces are made explicit: file contents are passed
as values (`none` models a missing file, the only `open` failure the code
catches), HTTP responses and poll responses are oracles, and the values
drawn by `random.randint` are an oracle stream.
-/

set_option autoImplicit false

namespace BatchV2

/-- The `\x7b` character, written by code point to keep string scanning
simple. -/
def lbrace : Char := Char.ofNat 123

/-- The `\x7d` character. -/
def rbrace : Char := Char.ofNat 125

/-- Python `str.strip()` whitespace, restricted to the ASCII whitespace
characters (the inputs in question are ASCII-plus-the-delimiter
characters; Unicode spaces are not modelled). -/
def pyIsSpace (c : Char) : Bool :=
  c = ' ' || c = '\t' || c = '\n' || c = '\x0d' || c = '\x0b' || c = '\x0c'

/-- Python `s.strip()` on a line: drop leading and trailing whitespace. -/
def pyStrip (xs : List Char) : List Char :=
  ((xs.dropWhile pyIsSpace).reverse.dropWhile pyIsSpace).reverse

/-- Python `s.rstrip('¥')`: drop trailing `¥` characters (line 71). -/
def rstripYen (xs : List Char) : List Char :=
  (xs.reverse.dropWhile (fun c => c = '¥')).reverse

/-- Python `int` on a non-empty string of decimal digits. -/
def digitsToNat (ds : List Char) : Nat :=
  ds.foldl (fun a c => 10 * a + (c.toNat - 48)) 0

/-- Locate the first occurrence of the two-character separator `" ¥"`
(line 65): returns the part before it and the remainder after it. -/
def findSep : List Char → Option (List Char × List Char)
  | [] => none
  | ' ' :: '¥' :: rest => some ([], rest)
  | c :: rest => (findSep rest).map (fun p => (c :: p.1, p.2))

/-- Python `content.split(' ¥')` (line 65): split on every occurrence of
the two-character separator, left to right.  Every separator consumes
two characters, so fuel equal to the length of the input never runs out
before the scan ends. -/
def splitSepAux : Nat → List Char → List (List Char)
  | 0, xs => [xs]
  | fuel + 1, xs =>
    match findSep xs with
    | none => [xs]
    | some (b, a) => b :: splitSepAux fuel a

/-- `content.split(' ¥')` over a string. -/
def splitSep (xs : List Char) : List (List Char) :=
  splitSepAux xs.length xs

/-- One attempted match of the regex `∆\x7b([^\x7d]+)\x7d•(\d+)∆`
(line 73) anchored at the head of the list.  On success, returns the two
capture groups (name, digits) and the suffix after the match.  The regex
engine needs no backtracking here: `[^\x7d]+` is maximal up to the next
`\x7d` and `\d+` is maximal up to the next non-digit, and giving back
characters can never make the following literal match. -/
def matchAt (xs : List Char) : Option ((List Char × List Char) × List Char) :=
  match xs with
  | '∆' :: c2 :: rest =>
    if c2 = lbrace then
      let nm := rest.takeWhile (fun c => c ≠ rbrace)
      match rest.dropWhile (fun c => c ≠ rbrace) with
      | _ :: r2 =>
        if nm.isEmpty then none
        else
          match r2 with
          | '•' :: r3 =>
            let ds := r3.takeWhile Char.isDigit
            if ds.isEmpty then none
            else
              match r3.dropWhile Char.isDigit with
              | '∆' :: r5 => some ((nm, ds), r5)
              | _ => none
          | _ => none
      | [] => none
    else none
  | _ => none

/-- Python `re.findall(pattern, s)` (line 74): scan left to right, try a
match at each position, and resume after each successful match.  Each
step consumes at least one character, so fuel equal to the length of the
input never runs out before the scan ends. -/
def findallAux : Nat → List Char → List (List Char × List Char)
  | 0, _ => []
  | _ + 1, [] => []
  | fuel + 1, c :: rest =>
    match matchAt (c :: rest) with
    | some (m, after) => m :: findallAux fuel after
    | none => findallAux fuel rest

/-- `re.findall` of the workflow pattern over a string. -/
def findall (xs : List Char) : List (List Char × List Char) :=
  findallAux xs.length xs

/-- One `RatioSpec`: the dict `{'type': ..., 'count': ...}` built on
line 80. -/
structure RatioSpec where
  type : List Char
  count : Nat
  deriving Repr, DecidableEq

/-- One `RunEntry`: the dict appended on lines 82-86. -/
structure RunEntry where
  text : List Char
  ratios : List RatioSpec
  line_num : Nat
  deriving Repr, DecidableEq

/-- The qualification test of line 60: after stripping, the line starts
with `[` and ends with `]`. -/
def line_qualifies (raw : List Char) : Bool :=
  let l := pyStrip raw
  decide (l.head? = some '[') && decide (l.getLast? = some ']')

/-- `line[1:-1]` applied to the stripped line (line 64). -/
def line_content (raw : List Char) : List Char :=
  ((pyStrip raw).drop 1).dropLast

/-- Result of handling one line of the prompt file. -/
inductive LineResult where
  /-- A valid line: one `RunEntry` is appended. -/
  | entry (e : RunEntry)
  /-- Line does not qualify (line 60-61): silently ignored. -/
  | skipSilent
  /-- `len(parts) != 2` (lines 66-68): warning logged, line skipped. -/
  | warnSplit
  /-- no regex match (lines 76-78): warning logged, line skipped. -/
  | warnNoMatch

/-- The body of the `for line_num, line in enumerate(f, 1)` loop
(lines 58-89).  The inner `try/except` of line 63/88 can only be reached
by exceptions none of which can occur in this pure model (`int` on a
`\d+` match never fails in Python 3). -/
def parse_line (line_num : Nat) (raw : List Char) : LineResult :=
  if line_qualifies raw then
    let parts := splitSep (line_content raw)
    match parts with
    | [workflow_part, prompt_raw] =>
      let prompt_text := pyStrip (rstripYen prompt_raw)
      let ms := findall workflow_part
      if ms.isEmpty then .warnNoMatch
      else
        .entry { text := prompt_text
                 ratios := ms.map (fun m => ⟨pyStrip m.1, digitsToNat m.2⟩)
                 line_num := line_num }
    | _ => .warnSplit
  else .skipSilent

/-- Diagnostics logged by the parser. -/
inductive Diag where
  /-- line 67: invalid format, separator count wrong. -/
  | malformedSplit (line_num : Nat)
  /-- line 77: no workflow pattern found. -/
  | noWorkflow (line_num : Nat)
  /-- line 91: prompt file not found. -/
  | fileNotFound
  deriving Repr, DecidableEq

/-- The whole line loop: entries accumulated in order, diagnostics
accumulated in order. -/
def parse_lines : Nat → List (List Char) → List RunEntry × List Diag
  | _, [] => ([], [])
  | n, l :: rest =>
    let tail := parse_lines (n + 1) rest
    match parse_line n l with
    | .entry e => (e :: tail.1, tail.2)
    | .skipSilent => tail
    | .warnSplit => (tail.1, .malformedSplit n :: tail.2)
    | .warnNoMatch => (tail.1, .noWorkflow n :: tail.2)

/-- A Python-level exception escaping a call.  `parse_prompt_file` never
lets one escape, which the `Except` result type makes explicit. -/
inductive PyErr where
  | exn
  deriving Repr, DecidableEq

/-- `parse_prompt_file` (lines 53-92).  The file is passed as its list
of lines; `none` models the only `open` failure the code handles,
`FileNotFoundError`, which is caught on line 90, logged, and turned into
a normal return of the (empty) accumulated list. -/
def parse_prompt_file : Option (List (List Char)) → Except PyErr (List RunEntry × List Diag)
  | none => .ok ([], [.fileNotFound])
  | some ls => .ok (parse_lines 1 ls)

/-! ## JSON value model

`json.load` produces nested dicts/lists/scalars.  `JVal` models a JSON
value with the object spine split out as its own inductive (`JFields`)
so that recursion and induction over objects stay structural. -/

mutual
/-- A JSON value as loaded by `json.load`. -/
inductive JVal where
  | str (s : String)
  | num (n : Int)
  | bool (b : Bool)
  | null
  | arr (elems : JList)
  | obj (fields : JFields)

/-- A JSON array's elements. -/
inductive JList where
  | nil
  | cons (hd : JVal) (tl : JList)

/-- A JSON object's fields, in insertion order (Python dicts preserve
insertion order; keys are unique after `json.load`). -/
inductive JFields where
  | nil
  | cons (key : String) (val : JVal) (tl : JFields)
end

namespace JFields

/-- Python `d.get(k)` / `d[k]`: the value at the first matching key. -/
def get? : JFields → String → Option JVal
  | .nil, _ => none
  | .cons k v tl, key => if k = key then some v else tl.get? key

/-- Python `k in d`. -/
def hasKey (fs : JFields) (key : String) : Bool :=
  (fs.get? key).isSome

/-- Python `d[k] = v`: replace the value at an existing key in place
(keeping its position), otherwise append the new key at the end. -/
def set : JFields → String → JVal → JFields
  | .nil, key, v => .cons key v .nil
  | .cons k w tl, key, v =>
    if k = key then .cons k v tl else .cons k w (tl.set key v)

/-- The keys, in order. -/
def keys : JFields → List String
  | .nil => []
  | .cons k _ tl => k :: tl.keys

/-- The number of fields. -/
def length : JFields → Nat
  | .nil => 0
  | .cons _ _ tl => tl.length + 1

/-- The field at a position, in order. -/
def nth : JFields → Nat → Option (String × JVal)
  | .nil, _ => none
  | .cons k v _, 0 => some (k, v)
  | .cons _ _ tl, n + 1 => tl.nth n

end JFields

/-- Python `v == "s"` for a JSON value against a string literal:
true exactly when the value is that string. -/
def isStrEq (v : JVal) (s : String) : Bool :=
  match v with
  | .str t => t = s
  | _ => false

/-- Whether a JSON value is a dict (`isinstance(v, dict)`, line 106). -/
def isObj (v : JVal) : Bool :=
  match v with
  | .obj _ => true
  | _ => false

/-! ## The materializer, `update_workflow_prompt` (lines 103-111)

Value-level model.  The Python function mutates the workflow dict in
place and returns it; here the returned value is the updated workflow.
The values drawn by `random.randint(1, 10**15)` (line 110) are supplied
as an oracle stream `seeds`, consumed left to right, one draw per node
that reaches the `randint` call. -/

/-- `node_data.get('class_type') == s` for a node's field list. -/
def class_is (nf : JFields) (s : String) : Bool :=
  match nf.get? "class_type" with
  | some v => isStrEq v s
  | none => false

/-- The full guard of line 107:
`class_type == 'CLIPTextEncode' and 'inputs' in node_data and
'text' in node_data['inputs']`.  The last conjunct is modelled for a
dict-valued `inputs`; for a non-dict `inputs` Python's `in` is
containment or a `TypeError`, and the well-formedness predicate below
excludes those workflows. -/
def clip_cond (nf : JFields) : Bool :=
  class_is nf "CLIPTextEncode" && nf.hasKey "inputs" &&
    (match nf.get? "inputs" with
     | some (.obj inf) => inf.hasKey "text"
     | _ => false)

/-- The guard of line 109:
`class_type == 'KSampler' and 'inputs' in node_data`. -/
def ks_cond (nf : JFields) : Bool :=
  class_is nf "KSampler" && nf.hasKey "inputs"

/-- Line 108: `node_data['inputs']['text'] = prompt_text`. -/
def set_text (nf : JFields) (prompt : String) : JFields :=
  match nf.get? "inputs" with
  | some (.obj inf) => nf.set "inputs" (.obj (inf.set "text" (.str prompt)))
  | _ => nf

/-- Line 110: `node_data['inputs']['seed'] = random.randint(1, 10**15)`.
For a non-dict `inputs` Python raises a `TypeError` (caught per unit by
the orchestrator); the model leaves the node unchanged there, and the
well-formedness predicate below excludes those workflows. -/
def set_seed (nf : JFields) (seed : Int) : JFields :=
  match nf.get? "inputs" with
  | some (.obj inf) => nf.set "inputs" (.obj (inf.set "seed" (.num seed)))
  | _ => nf

/-- The loop body of lines 106-110 for a single value of the workflow
dict.  `seed` is the value `random.randint` would return for this node;
it is only consumed when the `KSampler` guard holds. -/
def update_node (prompt : String) (seed : Int) (v : JVal) : JVal :=
  match v with
  | .obj nf =>
    let nf1 := if clip_cond nf then set_text nf prompt else nf
    .obj (if ks_cond nf1 then set_seed nf1 seed else nf1)
  | v => v

/-- Whether processing this value consumes a `random.randint` draw. -/
def node_uses_seed (v : JVal) : Bool :=
  match v with
  | .obj nf => ks_cond nf
  | _ => false

/-- The `for node_data in workflow.values()` loop (line 105) over the
fields of the workflow dict, threading the index into the seed
oracle. -/
def update_values (prompt : String) (seeds : Nat → Int) :
    JFields → Nat → JFields
  | .nil, _ => .nil
  | .cons k v tl, i =>
    .cons k (update_node prompt (seeds i) v)
      (update_values prompt seeds tl (i + (if node_uses_seed v then 1 else 0)))

/-- `update_workflow_prompt(workflow, prompt_text)` (lines 103-111) on
a workflow dict.  (Called on a non-dict value Python would raise an
`AttributeError`; the workflows the program loads are JSON objects.) -/
def update_workflow_prompt (prompt : String) (seeds : Nat → Int) (w : JVal) : JVal :=
  match w with
  | .obj fs => .obj (update_values prompt seeds fs 0)
  | v => v

/-- Well-formedness of one workflow value: wherever the code subscripts
`node_data['inputs']` (a `CLIPTextEncode` or `KSampler` node with an
`inputs` key), `inputs` is a dict, so the Python call raises nothing. -/
def wf_node (v : JVal) : Bool :=
  match v with
  | .obj nf =>
    (!(class_is nf "CLIPTextEncode" && nf.hasKey "inputs") ||
      (match nf.get? "inputs" with | some (.obj _) => true | _ => false)) &&
    (!(ks_cond nf) ||
      (match nf.get? "inputs" with | some (.obj _) => true | _ => false))
  | _ => true

/-- Well-formedness of a whole workflow dict. -/
def wf_workflow : JFields → Bool
  | .nil => true
  | .cons _ v tl => wf_node v && wf_workflow tl

/-- The text the materializer leaves in a node: `inputs['text']`. -/
def node_text (v : JVal) : Option JVal :=
  match v with
  | .obj nf =>
    match nf.get? "inputs" with
    | some (.obj inf) => inf.get? "text"
    | _ => none
  | _ => none

/-- The seed the materializer leaves in a node: `inputs['seed']`. -/
def node_seed (v : JVal) : Option JVal :=
  match v with
  | .obj nf =>
    match nf.get? "inputs" with
    | some (.obj inf) => inf.get? "seed"
    | _ => none
  | _ => none

/-- A node the materializer treats as a text-input node (the line 107
guard). -/
def is_text_input_node (v : JVal) : Bool :=
  match v with
  | .obj nf => clip_cond nf
  | _ => false

/-- A node the materializer treats as a seed-bearing node (the line 109
guard). -/
def is_seed_node (v : JVal) : Bool :=
  match v with
  | .obj nf => ks_cond nf
  | _ => false

/-! ## The submit/poll state machine (lines 113-142, 167-181)

`queue_prompt` returns `resp.json()` on success and `None` on any
exception (transport error, non-2xx via `raise_for_status`, or a body
that is not JSON); the response body is supplied as an oracle
`Option JVal`, `none` being the exception path.  `get_history` likewise
returns the poll response or `None`; the sequence of poll responses is
an oracle `Nat → Option JVal` indexed by poll attempt.  Time is
discrete: the `while time.time() - start_time < timeout` loop with a
2-second `time.sleep` makes at most `timeout / 2` poll attempts. -/

/-- Python truthiness of a JSON value (`if result and ...`, line 168;
`if history and ...`, line 139). -/
def py_truthy (v : JVal) : Bool :=
  match v with
  | .str s => s ≠ ""
  | .num n => n ≠ 0
  | .bool b => b
  | .null => false
  | .arr .nil => false
  | .arr (.cons _ _) => true
  | .obj .nil => false
  | .obj (.cons _ _ _) => true

/-- Python `x in d` for a JSON dict, where `x` is an arbitrary JSON
value compared against the (string) keys: `prompt_id in history`
(line 139).  A non-dict `history` would be Python containment or a
`TypeError`; the remote contract makes `/history` responses dicts, and
a non-string `prompt_id` never equals a string key in Python either. -/
def jkey_mem (h : JVal) (x : JVal) : Bool :=
  match h with
  | .obj fs => go fs
  | _ => false
where
  go : JFields → Bool
    | .nil => false
    | .cons k _ tl => isStrEq x k || go tl

/-- The test of line 139: `history and prompt_id in history`, with
`history = None` (a failed poll, line 131-132) included. -/
def history_done (resp : Option JVal) (pid : JVal) : Bool :=
  match resp with
  | none => false
  | some h => py_truthy h && jkey_mem h pid

/-- `wait_for_completion(prompt_id, timeout)` (lines 134-142): poll
attempt `i`, `i+1`, ... while fuel remains; `true` is job-finished,
`false` is timeout. -/
def wait_for_completion (histories : Nat → Option JVal) (pid : JVal) :
    Nat → Nat → Bool
  | _, 0 => false
  | i, fuel + 1 =>
    if history_done (histories i) pid then true
    else wait_for_completion histories pid (i + 1) fuel

/-- The poll budget: the default timeout of 600 seconds at one poll per
2-second sleep (lines 134, 141). -/
def maxPolls : Nat := 600 / 2

/-- The terminal outcome of one unit of work. -/
inductive JobOutcome where
  /-- `wait_for_completion` returned `True` (lines 172-174). -/
  | completed
  /-- submission failed: `queue_prompt` returned `None` or a result
  without a usable `prompt_id` (lines 178-180), or the unit raised and
  was caught (lines 183-185). -/
  | failed
  /-- `wait_for_completion` returned `False` (lines 175-177). -/
  | timedOut
  deriving Repr, DecidableEq

/-- The per-unit body of `process_prompts` (lines 167-180), from the
submission response onward: `result = queue_prompt(...)`;
`if result and 'prompt_id' in result:` poll, else count as failed. -/
def run_unit (submitResp : Option JVal) (histories : Nat → Option JVal) : JobOutcome :=
  match submitResp with
  | none => .failed
  | some r =>
    if py_truthy r && (match r with | .obj fs => fs.hasKey "prompt_id" | _ => false) then
      match (match r with | .obj fs => fs.get? "prompt_id" | _ => none) with
      | some pid =>
        if wait_for_completion histories pid 0 maxPolls then .completed else .timedOut
      | none => .failed
    else .failed

/-! ## The batch orchestrator, `process_prompts` (lines 144-188)

The tally loop.  What happens to each unit of work (resolve, load,
materialize, submit, poll — including any exception caught by the
per-unit `try/except` of lines 163/183) is abstracted into an outcome
oracle `Nat → JobOutcome` indexed by the unit counter; every code path
of the loop body records exactly one outcome. -/

/-- `total_generations` (line 151): the sum of all `count` fields over
all ratios of all parsed entries. -/
def total_generations (prompts : List RunEntry) : Nat :=
  (prompts.map (fun p => (p.ratios.map (fun r => r.count)).sum)).sum

/-- Record one outcome into the `(completed, failed)` tally
(lines 172-185): `completed` on success, `failed` on queue failure,
timeout, or a caught exception. -/
def tally_add (t : Nat × Nat) (o : JobOutcome) : Nat × Nat :=
  match o with
  | .completed => (t.1 + 1, t.2)
  | _ => (t.1, t.2 + 1)

/-- The `for i in range(count)` loop (line 162): process `count` units
starting at unit index `k`. -/
def run_count (outcome : Nat → JobOutcome) : Nat → Nat → Nat × Nat → (Nat × Nat) × Nat
  | k, 0, t => (t, k)
  | k, c + 1, t => run_count outcome (k + 1) c (tally_add t (outcome k))

/-- The `for ratio_data in prompt_data['ratios']` loop (line 159). -/
def run_ratios (outcome : Nat → JobOutcome) :
    List RatioSpec → Nat → Nat × Nat → (Nat × Nat) × Nat
  | [], k, t => (t, k)
  | r :: rs, k, t =>
    let step := run_count outcome k r.count t
    run_ratios outcome rs step.2 step.1

/-- The `for prompt_idx, prompt_data in enumerate(prompts)` loop
(line 155). -/
def run_entries (outcome : Nat → JobOutcome) :
    List RunEntry → Nat → Nat × Nat → (Nat × Nat) × Nat
  | [], k, t => (t, k)
  | p :: ps, k, t =>
    let step := run_ratios outcome p.ratios k t
    run_entries outcome ps step.2 step.1

/-- `process_prompts` from the parsed entries onward (lines 147-188):
the final `(completed, failed)` tally and the number of units that were
driven to a terminal outcome.  An empty entry list returns early
(line 147-149) with an untouched tally. -/
def process_prompts (outcome : Nat → JobOutcome) (prompts : List RunEntry) :
    (Nat × Nat) × Nat :=
  match prompts with
  | [] => ((0, 0), 0)
  | _ => run_entries outcome prompts 0 (0, 0)

/-! ## Heap model of `load_workflow` and in-place materialization

`load_workflow` (lines 94-101) calls `json.load` on every call, so every
resolve allocates a fresh object graph, and `update_workflow_prompt`
mutates that graph in place.  To reason about instance independence this
section gives a heap semantics: a heap is a list of cells, addresses are
indices, dicts are mutable cells of key-to-address maps, and all other
values (strings, numbers, arrays — the code never mutates an array) are
immutable boxed cells.  `json.load` allocates only fresh cells; the
registry itself (`self.workflows`, a name-to-path dict read off disk) is
pure data that nothing in the materialization path writes to. -/

/-- A heap cell. -/
inductive HCell where
  /-- An immutable value (string, number, bool, null, array). -/
  | box (v : JVal)
  /-- A mutable dict: keys to addresses of the values. -/
  | dict (fields : List (String × Nat))

/-- A heap: cell at address `a` is `h.cell a`; allocation appends. -/
abbrev Heap := List HCell

/-- Length of a heap (number of allocated cells). -/
def Heap.size (h : Heap) : Nat := List.length h

/-- The cell at an address. -/
def Heap.cell (h : Heap) (a : Nat) : Option HCell := h[a]?

mutual
/-- `json.load` on a value: allocate the object graph bottom-up and
return the new heap and the root address.  Dicts become `dict` cells
(children first); everything else becomes one `box` cell. -/
def json_load : JVal → Heap → Heap × Nat
  | .obj fs, h =>
    let step := json_load_fields fs h
    (step.1 ++ [.dict step.2], step.1.size)
  | v, h => (h ++ [.box v], h.size)

/-- Allocate the values of an object's fields, left to right. -/
def json_load_fields : JFields → Heap → Heap × List (String × Nat)
  | .nil, h => (h, [])
  | .cons k v tl, h =>
    let hv := json_load v h
    let ht := json_load_fields tl hv.1
    (ht.1, (k, hv.2) :: ht.2)
end

/-- `load_workflow(workflow_type)` (lines 94-101): look the name up in
the discovered registry (here: name to template document, the content of
the file at `self.workflows[workflow_type]`); an unknown name raises
(line 99, modelled as `none`), otherwise `json.load` allocates a fresh
copy on the heap. -/
def load_workflow (reg : String → Option JVal) (workflow_type : String)
    (h : Heap) : Option (Heap × Nat) :=
  (reg workflow_type).map (fun tpl => json_load tpl h)

mutual
/-- Read a value back from the heap; the fuel bounds the dict-nesting
depth followed. -/
def readVal (h : Heap) (fuel : Nat) (a : Nat) : Option JVal :=
  match fuel with
  | 0 => none
  | fuel' + 1 =>
    match h.cell a with
    | some (.box v) => some v
    | some (.dict fs) => (readFs h fuel' fs).map .obj
    | none => none
termination_by (fuel, 0)

/-- Read an object's fields back from the heap. -/
def readFs (h : Heap) (fuel : Nat) (l : List (String × Nat)) : Option JFields :=
  match l with
  | [] => some .nil
  | (k, a) :: tl =>
    match readVal h fuel a, readFs h fuel tl with
    | some v, some r => some (.cons k v r)
    | _, _ => none
termination_by (fuel, l.length + 1)
end

mutual
/-- Dict-nesting depth of a value: enough read fuel for its own graph. -/
def jdepth : JVal → Nat
  | .obj fs => jdepthF fs + 1
  | _ => 1

/-- Dict-nesting depth over an object's fields. -/
def jdepthF : JFields → Nat
  | .nil => 0
  | .cons _ v tl => max (jdepth v) (jdepthF tl)
end

/-! Heap-level model of `update_workflow_prompt` (lines 103-111): the
same conditions as the value-level model, acting by in-place cell
updates — dict cells are overwritten with `List.set`, the newly written
text and seed values are freshly boxed. -/

/-- First address bound to a key in a dict cell's field list. -/
def assocFind (fs : List (String × Nat)) (key : String) : Option Nat :=
  match fs with
  | [] => none
  | (k, a) :: tl => if k = key then some a else assocFind tl key

/-- Bind a key in a dict cell's field list: replace the first
occurrence in place, else append. -/
def assocSet (fs : List (String × Nat)) (key : String) (a : Nat) :
    List (String × Nat) :=
  match fs with
  | [] => [(key, a)]
  | (k, b) :: tl =>
    if k = key then (k, a) :: tl else (k, b) :: assocSet tl key a

/-- Whether the cell at an address is the boxed string `s`. -/
def cell_is_str (h : Heap) (a : Nat) (s : String) : Bool :=
  match h.cell a with
  | some (.box (.str t)) => t = s
  | _ => false

/-- The line 107 guard, on the heap. -/
def heap_clip_cond (h : Heap) (nf : List (String × Nat)) : Bool :=
  (match assocFind nf "class_type" with
   | some a => cell_is_str h a "CLIPTextEncode"
   | none => false) &&
  (match assocFind nf "inputs" with
   | some ai =>
     match h.cell ai with
     | some (.dict inf) => (assocFind inf "text").isSome
     | _ => false
   | none => false)

/-- The line 109 guard, on the heap. -/
def heap_ks_cond (h : Heap) (nf : List (String × Nat)) : Bool :=
  (match assocFind nf "class_type" with
   | some a => cell_is_str h a "KSampler"
   | none => false) &&
  (assocFind nf "inputs").isSome

/-- Line 108 on the heap: box the prompt, point `inputs['text']` at it. -/
def heap_set_text (h : Heap) (nf : List (String × Nat)) (prompt : String) : Heap :=
  match assocFind nf "inputs" with
  | some ai =>
    match h.cell ai with
    | some (.dict inf) =>
      (h ++ [HCell.box (.str prompt)]).set ai (.dict (assocSet inf "text" h.size))
    | _ => h
  | none => h

/-- Line 110 on the heap: box the drawn seed, point `inputs['seed']` at
it.  (A non-dict `inputs` raises in Python; the model is a no-op there,
as in the value-level model.) -/
def heap_set_seed (h : Heap) (nf : List (String × Nat)) (seed : Int) : Heap :=
  match assocFind nf "inputs" with
  | some ai =>
    match h.cell ai with
    | some (.dict inf) =>
      (h ++ [HCell.box (.num seed)]).set ai (.dict (assocSet inf "seed" h.size))
    | _ => h
  | none => h

/-- Lines 106-110 for one node address. -/
def heap_update_node (h : Heap) (a : Nat) (prompt : String) (seed : Int) : Heap :=
  match h.cell a with
  | some (.dict nf) =>
    let h1 := if heap_clip_cond h nf then heap_set_text h nf prompt else h
    if heap_ks_cond h1 nf then heap_set_seed h1 nf seed else h1
  | _ => h

/-- The line 105 loop over the workflow's node addresses, threading the
seed oracle index. -/
def heap_update_values (prompt : String) (seeds : Nat → Int) :
    List (String × Nat) → Nat → Heap → Heap
  | [], _, h => h
  | (_, a) :: tl, i, h =>
    let uses :=
      match h.cell a with
      | some (.dict nf) => heap_ks_cond h nf
      | _ => false
    heap_update_values prompt seeds tl (i + (if uses then 1 else 0))
      (heap_update_node h a prompt (seeds i))

/-- `update_workflow_prompt` on the heap: mutate the nodes of the
workflow dict at the root address in place. -/
def heap_update_workflow (h : Heap) (root : Nat) (prompt : String)
    (seeds : Nat → Int) : Heap :=
  match h.cell root with
  | some (.dict nodes) => heap_update_values prompt seeds nodes 0 h
  | _ => h

/-- A sample one-node template document used in concrete checks. -/
def sample_tpl : JVal :=
  .obj (.cons "3" (.obj (.cons "class_type" (.str "KSampler")
    (.cons "inputs" (.obj (.cons "steps" (.num 20) .nil)) .nil))) .nil)

/-! ## Lemmas about the field maps -/

namespace JFields

theorem get?_set_self (fs : JFields) (k : String) (v : JVal) :
    (fs.set k v).get? k = some v := by
  match fs with
  | .nil => simp [set, get?]
  | .cons k0 v0 tl =>
    by_cases h : k0 = k
    · simp [set, get?, h]
    · simp [set, get?, h, get?_set_self tl k v]

theorem get?_set_ne (fs : JFields) (k k' : String) (v : JVal) (h : k ≠ k') :
    (fs.set k v).get? k' = fs.get? k' := by
  match fs with
  | .nil => simp [set, get?, h]
  | .cons k0 v0 tl =>
    by_cases h0 : k0 = k
    · subst h0
      simp [set, get?, h]
    · simp [set, get?, h0, get?_set_ne tl k k' v h]

theorem keys_set_of_get? (fs : JFields) (k : String) (v w : JVal)
    (h : fs.get? k = some w) : (fs.set k v).keys = fs.keys := by
  match fs with
  | .nil => simp [get?] at h
  | .cons k0 v0 tl =>
    by_cases h0 : k0 = k
    · simp [set, keys, h0]
    · simp [get?, h0] at h
      simp [set, keys, h0, keys_set_of_get? tl k v w h]

theorem length_eq_keys_length (fs : JFields) : fs.length = fs.keys.length := by
  match fs with
  | .nil => rfl
  | .cons k v tl => simp [length, keys, length_eq_keys_length tl]

end JFields

/-! ## Lemmas about the materializer -/

theorem isStrEq_true {v : JVal} {s : String} (h : isStrEq v s = true) :
    v = .str s := by
  match v with
  | .str t => simp [isStrEq] at h; rw [h]
  | .num _ | .bool _ | .null | .arr _ | .obj _ => simp [isStrEq] at h

theorem class_is_ne (nf : JFields) (s s' : String) (h : class_is nf s = true)
    (hne : s' ≠ s) : class_is nf s' = false := by
  unfold class_is at h ⊢
  match hc : nf.get? "class_type" with
  | none => rw [hc] at h
  | some v =>
    rw [hc] at h
    have hv := isStrEq_true h
    subst hv
    show isStrEq (.str s) s' = false
    simp [isStrEq]
    exact fun hh => hne hh.symm

/-- The `class_type` value is untouched by `set_text`. -/
theorem class_is_set_text (nf : JFields) (p : String) (s : String) :
    class_is (set_text nf p) s = class_is nf s := by
  unfold set_text
  match h : nf.get? "inputs" with
  | some (.obj inf) =>
    unfold class_is
    rw [JFields.get?_set_ne nf "inputs" "class_type" _ (by decide)]
  | none => rfl
  | some (.str _) | some (.num _) | some (.bool _) | some .null | some (.arr _) => rfl

/-- `set_text` keeps the `inputs` key present. -/
theorem hasKey_inputs_set_text (nf : JFields) (p : String) :
    (set_text nf p).hasKey "inputs" = nf.hasKey "inputs" := by
  unfold set_text
  match h : nf.get? "inputs" with
  | some (.obj inf) =>
    unfold JFields.hasKey
    rw [JFields.get?_set_self, h]
    rfl
  | none => rfl
  | some (.str _) | some (.num _) | some (.bool _) | some .null | some (.arr _) => rfl

/-- `update_node` on a dict node, unfolded. -/
theorem update_node_obj (p : String) (s : Int) (nf : JFields) :
    update_node p s (.obj nf) =
      .obj (if ks_cond (if clip_cond nf then set_text nf p else nf)
            then set_seed (if clip_cond nf then set_text nf p else nf) s
            else (if clip_cond nf then set_text nf p else nf)) := rfl

/-- A node that is neither text-input nor seed-bearing passes through
`update_node` unchanged. -/
theorem update_node_plain (p : String) (s : Int) (v : JVal)
    (ht : is_text_input_node v = false) (hs : is_seed_node v = false) :
    update_node p s v = v := by
  match v with
  | .str _ | .num _ | .bool _ | .null | .arr _ => rfl
  | .obj nf =>
    have ht' : clip_cond nf = false := ht
    have hs' : ks_cond nf = false := hs
    rw [update_node_obj]
    simp [ht', hs']

/-- A text-input node comes out of `update_node` with its text field
equal to the prompt, verbatim. -/
theorem update_node_text (p : String) (s : Int) (nf : JFields)
    (h : clip_cond nf = true) :
    node_text (update_node p s (.obj nf)) = some (.str p) := by
  have hclip : class_is nf "CLIPTextEncode" = true := by
    unfold clip_cond at h
    simp only [Bool.and_eq_true] at h
    exact h.1.1
  have hks : class_is nf "KSampler" = false :=
    class_is_ne nf "CLIPTextEncode" "KSampler" hclip (by decide)
  have hks1 : ks_cond (set_text nf p) = false := by
    unfold ks_cond
    rw [class_is_set_text, hks]
    rfl
  have h' := h
  unfold clip_cond at h'
  simp only [Bool.and_eq_true] at h'
  match hinf : nf.get? "inputs" with
  | some (.obj inf) =>
    have hst : set_text nf p = nf.set "inputs" (.obj (inf.set "text" (.str p))) := by
      unfold set_text; rw [hinf]
    have hks2 : ks_cond (nf.set "inputs" (JVal.obj (inf.set "text" (.str p)))) = false := by
      rw [← hst]; exact hks1
    simp [update_node_obj, h, hst, hks2, node_text, JFields.get?_set_self]
  | none => rw [hinf] at h'; simp at h'
  | some (.str _) | some (.num _) | some (.bool _) | some .null | some (.arr _) =>
    rw [hinf] at h'; simp at h'

/-- A seed-bearing node with a dict `inputs` comes out of `update_node`
with its seed field equal to the drawn seed. -/
theorem update_node_seed (p : String) (s : Int) (nf inf : JFields)
    (h : ks_cond nf = true) (hinf : nf.get? "inputs" = some (.obj inf)) :
    node_seed (update_node p s (.obj nf)) = some (.num s) := by
  have hks : class_is nf "KSampler" = true := by
    unfold ks_cond at h
    simp only [Bool.and_eq_true] at h
    exact h.1
  have hclip : clip_cond nf = false := by
    unfold clip_cond
    rw [class_is_ne nf "KSampler" "CLIPTextEncode" hks (by decide)]
    rfl
  simp [update_node_obj, hclip, h, set_seed, node_seed, hinf, JFields.get?_set_self]

/-- `update_values` is a positional map: keys are preserved. -/
theorem update_values_keys (p : String) (seeds : Nat → Int) :
    ∀ (fs : JFields) (i : Nat), (update_values p seeds fs i).keys = fs.keys := by
  intro fs
  match fs with
  | .nil => intro i; rfl
  | .cons k v tl =>
    intro i
    simp [update_values, JFields.keys, update_values_keys p seeds tl]

/-- `update_values` is a positional map: the node at position `j` in the
output is `update_node` of the node at position `j` in the input, with
some draw from the seed oracle. -/
theorem update_values_nth (p : String) (seeds : Nat → Int) :
    ∀ (fs : JFields) (i j : Nat) (k : String) (v : JVal),
      fs.nth j = some (k, v) →
      ∃ m, (update_values p seeds fs i).nth j = some (k, update_node p (seeds m) v) := by
  intro fs
  match fs with
  | .nil => intro i j k v h; simp [JFields.nth] at h
  | .cons k0 v0 tl =>
    intro i j k v h
    match j with
    | 0 =>
      simp [JFields.nth] at h
      obtain ⟨h1, h2⟩ := h
      subst h1; subst h2
      exact ⟨i, rfl⟩
    | j + 1 =>
      simp only [JFields.nth] at h
      obtain ⟨m, hm⟩ :=
        update_values_nth p seeds tl (i + (if node_uses_seed v0 then 1 else 0)) j k v h
      exact ⟨m, hm⟩

/-- A workflow's well-formedness restricted to the node at a position. -/
theorem wf_workflow_nth (fs : JFields) (hw : wf_workflow fs = true) :
    ∀ j k v, fs.nth j = some (k, v) → wf_node v = true := by
  match fs with
  | .nil => intro j k v h; simp [JFields.nth] at h
  | .cons k0 v0 tl =>
    intro j k v h
    unfold wf_workflow at hw
    simp only [Bool.and_eq_true] at hw
    match j with
    | 0 =>
      simp [JFields.nth] at h
      obtain ⟨h1, h2⟩ := h
      subst h2
      exact hw.1
    | j + 1 =>
      simp only [JFields.nth] at h
      exact wf_workflow_nth tl hw.2 j k v h

/-- Extract, from well-formedness, that a seed-bearing node's `inputs`
is a dict. -/
theorem wf_seed_inputs_obj (nf : JFields) (hw : wf_node (.obj nf) = true)
    (hks : ks_cond nf = true) : ∃ inf, nf.get? "inputs" = some (.obj inf) := by
  unfold wf_node at hw
  simp only [Bool.and_eq_true, Bool.or_eq_true, Bool.not_eq_true'] at hw
  rcases hw.2 with hk | hobj
  · rw [hks] at hk; cases hk
  · match hi : nf.get? "inputs" with
    | some (.obj inf) => exact ⟨inf, rfl⟩
    | none => rw [hi] at hobj; cases hobj
    | some (.str _) | some (.num _) | some (.bool _) | some .null | some (.arr _) =>
      rw [hi] at hobj; cases hobj

/-- C4: for every workflow (whose `inputs` fields are dicts where the
code subscripts them) and every prompt string — of any length and
content, hence verbatim, unescaped and unbounded — the materializer
writes the prompt into the text field of every text-input node, and
writes into the seed field of every seed-bearing node a value drawn by
`random.randint(1, 10**15)`, which by that function's contract lies in
the closed range 1 to 10^15. -/
theorem materializer_text_and_seed (prompt : String) (seeds : Nat → Int) (fs : JFields)
    (hw : wf_workflow fs = true)
    (hr : ∀ i, 1 ≤ seeds i ∧ seeds i ≤ 10 ^ 15) :
    update_workflow_prompt prompt seeds (.obj fs) = .obj (update_values prompt seeds fs 0) ∧
    ∀ j k v, fs.nth j = some (k, v) →
      (is_text_input_node v = true →
        ∃ v', (update_values prompt seeds fs 0).nth j = some (k, v') ∧
          node_text v' = some (.str prompt)) ∧
      (is_seed_node v = true →
        ∃ v' s, (update_values prompt seeds fs 0).nth j = some (k, v') ∧
          node_seed v' = some (.num s) ∧ 1 ≤ s ∧ s ≤ 10 ^ 15) := by
  refine ⟨rfl, ?_⟩
  intro j k v hnth
  constructor
  · intro ht
    obtain ⟨m, hm⟩ := update_values_nth prompt seeds fs 0 j k v hnth
    refine ⟨update_node prompt (seeds m) v, hm, ?_⟩
    match v with
    | .obj nf => exact update_node_text prompt (seeds m) nf ht
    | .str _ | .num _ | .bool _ | .null | .arr _ => cases ht
  · intro hs
    obtain ⟨m, hm⟩ := update_values_nth prompt seeds fs 0 j k v hnth
    refine ⟨update_node prompt (seeds m) v, seeds m, hm, ?_, (hr m).1, (hr m).2⟩
    match v with
    | .obj nf =>
      obtain ⟨inf, hinf⟩ :=
        wf_seed_inputs_obj nf (wf_workflow_nth fs hw j k (.obj nf) hnth) hs
      exact update_node_seed prompt (seeds m) nf inf hs hinf
    | .str _ | .num _ | .bool _ | .null | .arr _ => cases hs

/-- Witness for C4 on a two-node workflow. -/
theorem materializer_text_and_seed_witness :
    (∃ v', (update_values "a cat, any † bytes" (fun _ => 7)
        (.cons "1" (.obj (.cons "class_type" (.str "CLIPTextEncode")
          (.cons "inputs" (.obj (.cons "text" (.str "old") .nil)) .nil)))
        (.cons "2" (.obj (.cons "class_type" (.str "KSampler")
          (.cons "inputs" (.obj (.cons "steps" (.num 20) .nil)) .nil))) .nil)) 0).nth 0
      = some ("1", v') ∧ node_text v' = some (.str "a cat, any † bytes")) ∧
    (∃ v' s, (update_values "a cat, any † bytes" (fun _ => 7)
        (.cons "1" (.obj (.cons "class_type" (.str "CLIPTextEncode")
          (.cons "inputs" (.obj (.cons "text" (.str "old") .nil)) .nil)))
        (.cons "2" (.obj (.cons "class_type" (.str "KSampler")
          (.cons "inputs" (.obj (.cons "steps" (.num 20) .nil)) .nil))) .nil)) 0).nth 1
      = some ("2", v') ∧ node_seed v' = some (.num s) ∧ 1 ≤ s ∧ s ≤ 10 ^ 15) := by
  have h := materializer_text_and_seed "a cat, any † bytes" (fun _ => 7)
    (.cons "1" (.obj (.cons "class_type" (.str "CLIPTextEncode")
      (.cons "inputs" (.obj (.cons "text" (.str "old") .nil)) .nil)))
    (.cons "2" (.obj (.cons "class_type" (.str "KSampler")
      (.cons "inputs" (.obj (.cons "steps" (.num 20) .nil)) .nil))) .nil))
    (by decide) (fun i => ⟨by norm_num, by norm_num⟩)
  exact ⟨(h.2 0 "1" _ rfl).1 rfl, (h.2 1 "2" _ rfl).2 rfl⟩

/-- C5: the materializer is a frame on everything that is neither a
text-input node nor a seed-bearing node: node count and keys (identity)
of the workflow are preserved, and any node matching neither guard comes
through entirely unchanged. -/
theorem materializer_frame (prompt : String) (seeds : Nat → Int) (fs : JFields)
    (_hw : wf_workflow fs = true) :
    update_workflow_prompt prompt seeds (.obj fs) = .obj (update_values prompt seeds fs 0) ∧
    (update_values prompt seeds fs 0).keys = fs.keys ∧
    (update_values prompt seeds fs 0).length = fs.length ∧
    ∀ j k v, fs.nth j = some (k, v) →
      is_text_input_node v = false → is_seed_node v = false →
      (update_values prompt seeds fs 0).nth j = some (k, v) := by
  refine ⟨rfl, update_values_keys prompt seeds fs 0, ?_, ?_⟩
  · rw [JFields.length_eq_keys_length, JFields.length_eq_keys_length,
      update_values_keys prompt seeds fs 0]
  · intro j k v hnth ht hs
    obtain ⟨m, hm⟩ := update_values_nth prompt seeds fs 0 j k v hnth
    rw [update_node_plain prompt (seeds m) v ht hs] at hm
    exact hm

/-- Witness for C5 on a workflow with one matching and one plain node. -/
theorem materializer_frame_witness :
    (update_values "p" (fun _ => 9)
        (.cons "1" (.obj (.cons "class_type" (.str "KSampler")
          (.cons "inputs" (.obj .nil) .nil)))
        (.cons "2" (.obj (.cons "class_type" (.str "SaveImage")
          (.cons "inputs" (.obj (.cons "filename" (.str "out") .nil)) .nil))) .nil)) 0).nth 1
      = some ("2", .obj (.cons "class_type" (.str "SaveImage")
          (.cons "inputs" (.obj (.cons "filename" (.str "out") .nil)) .nil))) :=
  (materializer_frame "p" (fun _ => 9)
    (.cons "1" (.obj (.cons "class_type" (.str "KSampler")
      (.cons "inputs" (.obj .nil) .nil)))
    (.cons "2" (.obj (.cons "class_type" (.str "SaveImage")
      (.cons "inputs" (.obj (.cons "filename" (.str "out") .nil)) .nil))) .nil))
    (by decide)).2.2.2 1 "2" _ rfl (by decide) (by decide)

/-- C10: the materializer's edge behavior: a `CLIPTextEncode` node with
a dict `inputs` but no `text` key is left entirely unchanged (no key is
created); a `KSampler` node with a dict `inputs` gets a seed written
even when no `seed` key existed (the key is created); a top-level value
that is not a dict passes through unchanged. -/
theorem materializer_edge_cases :
    (∀ (nf inf : JFields) (prompt : String) (seed : Int),
      class_is nf "CLIPTextEncode" = true →
      nf.get? "inputs" = some (.obj inf) →
      inf.hasKey "text" = false →
      update_node prompt seed (.obj nf) = .obj nf) ∧
    (∀ (nf inf : JFields) (prompt : String) (seed : Int),
      class_is nf "KSampler" = true →
      nf.get? "inputs" = some (.obj inf) →
      inf.hasKey "seed" = false →
      update_node prompt seed (.obj nf)
          = .obj (nf.set "inputs" (.obj (inf.set "seed" (.num seed)))) ∧
        node_seed (update_node prompt seed (.obj nf)) = some (.num seed)) ∧
    (∀ (v : JVal) (prompt : String) (seed : Int),
      isObj v = false → update_node prompt seed v = v) := by
  refine ⟨?_, ?_, ?_⟩
  · intro nf inf prompt seed hcl hinf htext
    have hclip : clip_cond nf = false := by
      unfold clip_cond
      rw [hinf]
      simp [htext]
    have hks : ks_cond nf = false := by
      unfold ks_cond
      rw [class_is_ne nf "CLIPTextEncode" "KSampler" hcl (by decide)]
      rfl
    rw [update_node_obj]
    simp [hclip, hks]
  · intro nf inf prompt seed hks hinf hseed
    have hclip : clip_cond nf = false := by
      unfold clip_cond
      rw [class_is_ne nf "KSampler" "CLIPTextEncode" hks (by decide)]
      rfl
    have hkc : ks_cond nf = true := by
      unfold ks_cond
      rw [hks]
      unfold JFields.hasKey
      rw [hinf]
      rfl
    constructor
    · rw [update_node_obj]
      simp [hclip, hkc, set_seed, hinf]
    · exact update_node_seed prompt seed nf inf hkc hinf
  · intro v prompt seed hv
    match v with
    | .str _ | .num _ | .bool _ | .null | .arr _ => rfl
    | .obj _ => cases hv

/-- Witness for C10 at concrete nodes. -/
theorem materializer_edge_cases_witness :
    update_node "p" 5 (.obj (.cons "class_type" (.str "CLIPTextEncode")
        (.cons "inputs" (.obj (.cons "clip" (.str "c") .nil)) .nil)))
      = .obj (.cons "class_type" (.str "CLIPTextEncode")
        (.cons "inputs" (.obj (.cons "clip" (.str "c") .nil)) .nil)) ∧
    node_seed (update_node "p" 5 (.obj (.cons "class_type" (.str "KSampler")
        (.cons "inputs" (.obj .nil) .nil)))) = some (.num 5) ∧
    update_node "p" 5 (.str "not a node") = .str "not a node" :=
  ⟨materializer_edge_cases.1
     (.cons "class_type" (.str "CLIPTextEncode")
       (.cons "inputs" (.obj (.cons "clip" (.str "c") .nil)) .nil))
     (.cons "clip" (.str "c") .nil) "p" 5 (by decide) rfl (by decide),
   (materializer_edge_cases.2.1
     (.cons "class_type" (.str "KSampler") (.cons "inputs" (.obj .nil) .nil))
     .nil "p" 5 (by decide) rfl (by decide)).2,
   materializer_edge_cases.2.2 (.str "not a node") "p" 5 (by decide)⟩

/-! ## The orchestrator tally (C1) -/

theorem tally_add_sum (t : Nat × Nat) (o : JobOutcome) :
    (tally_add t o).1 + (tally_add t o).2 = t.1 + t.2 + 1 := by
  cases o <;> simp [tally_add] <;> omega

theorem run_count_spec (outcome : Nat → JobOutcome) :
    ∀ (c k : Nat) (t : Nat × Nat),
      (run_count outcome k c t).1.1 + (run_count outcome k c t).1.2
          = t.1 + t.2 + c ∧
        (run_count outcome k c t).2 = k + c := by
  intro c
  induction c with
  | zero => intro k t; simp [run_count]
  | succ c ih =>
    intro k t
    have h := ih (k + 1) (tally_add t (outcome k))
    simp only [run_count]
    rw [h.1, tally_add_sum]
    refine ⟨by omega, by rw [h.2]; omega⟩

theorem run_ratios_spec (outcome : Nat → JobOutcome) :
    ∀ (rs : List RatioSpec) (k : Nat) (t : Nat × Nat),
      (run_ratios outcome rs k t).1.1 + (run_ratios outcome rs k t).1.2
          = t.1 + t.2 + (rs.map (fun r => r.count)).sum ∧
        (run_ratios outcome rs k t).2 = k + (rs.map (fun r => r.count)).sum := by
  intro rs
  induction rs with
  | nil => intro k t; simp [run_ratios]
  | cons r rs ih =>
    intro k t
    have hc := run_count_spec outcome r.count k t
    have h := ih (run_count outcome k r.count t).2 (run_count outcome k r.count t).1
    simp only [run_ratios, List.map_cons, List.sum_cons]
    rw [h.1, hc.1]
    refine ⟨by omega, ?_⟩
    rw [h.2, hc.2]
    omega

theorem run_entries_spec (outcome : Nat → JobOutcome) :
    ∀ (ps : List RunEntry) (k : Nat) (t : Nat × Nat),
      (run_entries outcome ps k t).1.1 + (run_entries outcome ps k t).1.2
          = t.1 + t.2 + total_generations ps ∧
        (run_entries outcome ps k t).2 = k + total_generations ps := by
  intro ps
  induction ps with
  | nil => intro k t; simp [run_entries, total_generations]
  | cons p ps ih =>
    intro k t
    have hr := run_ratios_spec outcome p.ratios k t
    have h := ih (run_ratios outcome p.ratios k t).2 (run_ratios outcome p.ratios k t).1
    simp only [run_entries, total_generations, List.map_cons, List.sum_cons] at *
    rw [h.1, hr.1]
    refine ⟨by omega, ?_⟩
    rw [h.2, hr.2]
    omega

/-- C1: for every outcome assignment — i.e. no matter how each unit of
work terminates, so no unit's failure can prevent the rest from being
counted — the orchestrator visits exactly `total_generations` units
(the sum of all `count` fields over all ratios of all parsed entries),
each unit contributes exactly one terminal outcome to the tally, and at
the end `completed + failed = total_generations`. -/
theorem process_prompts_tally (outcome : Nat → JobOutcome) (prompts : List RunEntry) :
    (process_prompts outcome prompts).1.1 + (process_prompts outcome prompts).1.2
        = total_generations prompts ∧
      (process_prompts outcome prompts).2 = total_generations prompts ∧
      total_generations prompts
        = (prompts.map (fun p => (p.ratios.map (fun r => r.count)).sum)).sum := by
  match prompts with
  | [] => exact ⟨rfl, rfl, rfl⟩
  | p :: ps =>
    have h := run_entries_spec outcome (p :: ps) 0 (0, 0)
    exact ⟨by rw [show process_prompts outcome (p :: ps)
        = run_entries outcome (p :: ps) 0 (0, 0) from rfl]; rw [h.1]; simp,
      by rw [show process_prompts outcome (p :: ps)
        = run_entries outcome (p :: ps) 0 (0, 0) from rfl]; rw [h.2]; simp,
      rfl⟩

/-! ## Lemmas about the line parser -/

/-- A non-qualifying line is skipped with no entry and no diagnostic. -/
theorem parse_line_skip (n : Nat) (raw : List Char)
    (hq : line_qualifies raw = false) : parse_line n raw = .skipSilent := by
  unfold parse_line
  rw [hq]
  rfl

/-- A qualifying line whose content does not split into exactly two
parts is a `warnSplit`. -/
theorem parse_line_warnSplit (n : Nat) (raw : List Char)
    (hq : line_qualifies raw = true)
    (hlen : (splitSep (line_content raw)).length ≠ 2) :
    parse_line n raw = .warnSplit := by
  unfold parse_line
  rw [hq, if_pos rfl]
  match hs : splitSep (line_content raw) with
  | [] => rfl
  | [_] => rfl
  | [w, t] => rw [hs] at hlen; simp at hlen
  | _ :: _ :: _ :: _ => rfl

/-- A qualifying, correctly split line with no workflow match is a
`warnNoMatch`. -/
theorem parse_line_warnNoMatch (n : Nat) (raw : List Char) (w t : List Char)
    (hq : line_qualifies raw = true)
    (hs : splitSep (line_content raw) = [w, t])
    (hm : findall w = []) :
    parse_line n raw = .warnNoMatch := by
  unfold parse_line
  rw [hq, if_pos rfl, hs]
  simp [hm]

/-- A qualifying, correctly split line with at least one workflow match
yields exactly the entry built on lines 80-86. -/
theorem parse_line_entry_of (n : Nat) (raw : List Char) (w t : List Char)
    (hq : line_qualifies raw = true)
    (hs : splitSep (line_content raw) = [w, t])
    (hm : findall w ≠ []) :
    parse_line n raw =
      .entry { text := pyStrip (rstripYen t)
               ratios := (findall w).map (fun m => ⟨pyStrip m.1, digitsToNat m.2⟩)
               line_num := n } := by
  unfold parse_line
  rw [hq, if_pos rfl, hs]
  have he : (findall w).isEmpty = false := by
    simp [List.isEmpty_iff]
    exact hm
  simp only [he]
  rfl

/-- Anything `parse_line` accepts has the shape built on lines 80-86. -/
theorem parse_line_entry_shape (n : Nat) (raw : List Char) (e : RunEntry)
    (h : parse_line n raw = .entry e) :
    ∃ w t, line_qualifies raw = true ∧ splitSep (line_content raw) = [w, t] ∧
      findall w ≠ [] ∧
      e = { text := pyStrip (rstripYen t)
            ratios := (findall w).map (fun m => ⟨pyStrip m.1, digitsToNat m.2⟩)
            line_num := n } := by
  by_cases hq : line_qualifies raw
  · match hs : splitSep (line_content raw) with
    | [w, t] =>
      by_cases hm : findall w = []
      · rw [parse_line_warnNoMatch n raw w t hq hs hm] at h
        simp at h
      · rw [parse_line_entry_of n raw w t hq hs hm] at h
        injection h with h
        exact ⟨w, t, hq, rfl, hm, h.symm⟩
    | [] => rw [parse_line_warnSplit n raw hq (by rw [hs]; simp)] at h; simp at h
    | [_] => rw [parse_line_warnSplit n raw hq (by rw [hs]; simp)] at h; simp at h
    | _ :: _ :: _ :: _ =>
      rw [parse_line_warnSplit n raw hq (by rw [hs]; simp)] at h
      simp at h
  · rw [parse_line_skip n raw (by simpa using hq)] at h
    simp at h

/-- Every entry produced from lines numbered from `n` onward carries a
line number at least `n`. -/
theorem parse_lines_line_num_lb :
    ∀ (ls : List (List Char)) (n : Nat) (e : RunEntry),
      e ∈ (parse_lines n ls).1 → n ≤ e.line_num := by
  intro ls
  induction ls with
  | nil => intro n e h; simp [parse_lines] at h
  | cons l rest ih =>
    intro n e h
    match hpl : parse_line n l with
    | .entry e' =>
      simp only [parse_lines, hpl] at h
      rcases List.mem_cons.mp h with rfl | hm
      · obtain ⟨w, t, _, _, _, he⟩ := parse_line_entry_shape n l e hpl
        rw [he]
      · exact Nat.le_of_succ_le (ih (n + 1) e hm)
    | .skipSilent =>
      simp only [parse_lines, hpl] at h
      exact Nat.le_of_succ_le (ih (n + 1) e h)
    | .warnSplit =>
      simp only [parse_lines, hpl] at h
      exact Nat.le_of_succ_le (ih (n + 1) e h)
    | .warnNoMatch =>
      simp only [parse_lines, hpl] at h
      exact Nat.le_of_succ_le (ih (n + 1) e h)

/-! ## Claims about the parser -/

/-- Counterexample to C2 as stated: a missing spec file is *not* a hard
failure reported to the caller — lines 90-91 catch `FileNotFoundError`,
log, and fall through to `return prompts`, so the caller receives a
normal (empty) result, indistinguishable from a file with no valid
lines. -/
theorem parse_missing_file_counterexample :
    parse_prompt_file none = Except.ok ([], [Diag.fileNotFound]) := rfl

/-- C2 amended: `parse` never raises — neither on malformed lines nor on
a missing file; the missing-file case is contained inside `parse`, which
logs a diagnostic and returns an empty entry list (the CLI guards file
existence separately, before the run). -/
theorem parse_never_raises :
    (∀ inp, ∃ r, parse_prompt_file inp = Except.ok r) ∧
    parse_prompt_file none = Except.ok ([], [Diag.fileNotFound]) := by
  refine ⟨?_, rfl⟩
  intro inp
  match inp with
  | none => exact ⟨([], [.fileNotFound]), rfl⟩
  | some ls => exact ⟨parse_lines 1 ls, rfl⟩

/-- Counterexample to C8 as stated: the line `[∆\x7ba\x7d•1∆ ¥¥]` parses
to an entry whose `text` is *empty* after delimiter stripping — the
parser never checks the prompt text for non-emptiness. -/
theorem parse_empty_text_counterexample :
    parse_prompt_file
        (some [['[', '∆', lbrace, 'a', rbrace, '•', '1', '∆', ' ', '¥', '¥', ']']])
      = Except.ok ([{ text := [], ratios := [⟨['a'], 1⟩], line_num := 1 }], []) := by
  rfl

/-- C8 amended: every returned `RunEntry` has a non-empty `ratios` list
and (trivially, counts being parsed from digit runs) counts `≥ 0`, and a
count of 0 is accepted as a valid entry rather than rejected — but the
`text` field may be empty after trimming delimiters. -/
theorem parse_entry_invariants :
    (∀ (n : Nat) (ls : List (List Char)) (e : RunEntry),
        e ∈ (parse_lines n ls).1 →
          e.ratios ≠ [] ∧ ∀ r ∈ e.ratios, 0 ≤ r.count) ∧
    parse_prompt_file
        (some [['[', '∆', lbrace, 'a', rbrace, '•', '0', '∆', ' ', '¥', 'x', '¥', ']']])
      = Except.ok ([{ text := ['x'], ratios := [⟨['a'], 0⟩], line_num := 1 }], []) := by
  constructor
  · intro n ls
    induction ls generalizing n with
    | nil => intro e h; simp [parse_lines] at h
    | cons l rest ih =>
      intro e h
      match hpl : parse_line n l with
      | .entry e' =>
        simp only [parse_lines, hpl] at h
        rcases List.mem_cons.mp h with rfl | hm
        · obtain ⟨w, t, _, _, hmm, he⟩ := parse_line_entry_shape n l e hpl
          rw [he]
          refine ⟨?_, fun r _ => Nat.zero_le _⟩
          simp only [ne_eq, List.map_eq_nil_iff]
          exact hmm
        · exact ih (n + 1) e hm
      | .skipSilent => simp only [parse_lines, hpl] at h; exact ih (n + 1) e h
      | .warnSplit => simp only [parse_lines, hpl] at h; exact ih (n + 1) e h
      | .warnNoMatch => simp only [parse_lines, hpl] at h; exact ih (n + 1) e h
  · rfl

/-- Witness for the amended C8 at a concrete parse. -/
theorem parse_entry_invariants_witness :
    ({ text := ['x'], ratios := [⟨['a'], 0⟩], line_num := 1 } : RunEntry).ratios ≠ [] :=
  (parse_entry_invariants.1 1
    [['[', '∆', lbrace, 'a', rbrace, '•', '0', '∆', ' ', '¥', 'x', '¥', ']']]
    { text := ['x'], ratios := [⟨['a'], 0⟩], line_num := 1 } (by decide)).1

/-- C7: non-qualifying lines are silently dropped — no entry and no
diagnostic; a malformed bracketed line (wrong number of split parts, or
zero workflow matches) contributes no entry and exactly one diagnostic;
in every case the remaining lines are parsed exactly as they would be on
their own — one bad line never aborts the file. -/
theorem parse_malformed_contained :
    (∀ (n : Nat) (l : List Char) (rest : List (List Char)),
      line_qualifies l = false →
        parse_lines n (l :: rest) = parse_lines (n + 1) rest) ∧
    (∀ (n : Nat) (l : List Char) (rest : List (List Char)),
      line_qualifies l = true →
      (splitSep (line_content l)).length ≠ 2 →
        parse_lines n (l :: rest)
          = ((parse_lines (n + 1) rest).1,
             Diag.malformedSplit n :: (parse_lines (n + 1) rest).2)) ∧
    (∀ (n : Nat) (l : List Char) (rest : List (List Char)) (w t : List Char),
      line_qualifies l = true →
      splitSep (line_content l) = [w, t] →
      findall w = [] →
        parse_lines n (l :: rest)
          = ((parse_lines (n + 1) rest).1,
             Diag.noWorkflow n :: (parse_lines (n + 1) rest).2)) := by
  refine ⟨?_, ?_, ?_⟩
  · intro n l rest hq
    simp only [parse_lines, parse_line_skip n l hq]
  · intro n l rest hq hlen
    simp only [parse_lines, parse_line_warnSplit n l hq hlen]
  · intro n l rest w t hq hs hm
    simp only [parse_lines, parse_line_warnNoMatch n l w t hq hs hm]

/-- Witness for C7 at concrete lines: a comment line, a line with no
separator, and a bracketed line with no workflow group. -/
theorem parse_malformed_contained_witness :
    parse_lines 1 ([' ', 'h', 'i'] :: [['[', 'o', 'k', ']']])
      = parse_lines 2 [['[', 'o', 'k', ']']] ∧
    parse_lines 1 [['[']]
      = parse_lines 2 [] ∧
    parse_lines 3 ([['[', 'a', 'b', ']'], ['x']])
      = ((parse_lines 4 [['x']]).1,
         Diag.malformedSplit 3 :: (parse_lines 4 [['x']]).2) ∧
    parse_lines 5 ([['[', 'a', 'b', ' ', '¥', 'x', ']'], []])
      = ((parse_lines 6 [[]]).1,
         Diag.noWorkflow 5 :: (parse_lines 6 [[]]).2) := by
  refine ⟨?_, ?_, ?_, ?_⟩
  · exact parse_malformed_contained.1 1 [' ', 'h', 'i'] [['[', 'o', 'k', ']']] (by decide)
  · exact parse_malformed_contained.1 1 ['['] [] (by decide)
  · exact parse_malformed_contained.2.1 3 ['[', 'a', 'b', ']'] [['x']] (by decide) (by decide)
  · exact parse_malformed_contained.2.2 5 ['[', 'a', 'b', ' ', '¥', 'x', ']'] [[]]
      ['a', 'b'] ['x'] (by decide) (by decide) (by decide)

/-- The filtered-output characterization of one well-formed line, with
an arbitrary starting line number. -/
theorem parse_lines_filter :
    ∀ (ls : List (List Char)) (n i : Nat) (w t : List Char) (hi : i < ls.length),
      line_qualifies ls[i] = true →
      splitSep (line_content ls[i]) = [w, t] →
      findall w ≠ [] →
      (parse_lines n ls).1.filter (fun e => e.line_num == n + i)
        = [{ text := pyStrip (rstripYen t)
             ratios := (findall w).map (fun m => ⟨pyStrip m.1, digitsToNat m.2⟩)
             line_num := n + i }] := by
  intro ls
  induction ls with
  | nil => intro n i w t hi; simp at hi
  | cons l rest ih =>
    intro n i w t hi hq hs hm
    match i with
    | 0 =>
      simp only [List.getElem_cons_zero] at hq hs
      rw [parse_lines, parse_line_entry_of n l w t hq hs hm]
      have hnil : (parse_lines (n + 1) rest).1.filter
          (fun e => e.line_num == n + 0) = [] := by
        rw [List.filter_eq_nil_iff]
        intro e he
        have := parse_lines_line_num_lb rest (n + 1) e he
        simp only [beq_iff_eq]
        omega
      simp only [List.filter_cons, hnil]
      simp
    | i + 1 =>
      simp only [List.getElem_cons_succ] at hq hs
      have hkey : n + (i + 1) = (n + 1) + i := by omega
      have htail := ih (n + 1) i w t (by simpa using hi) hq hs hm
      match hpl : parse_line n l with
      | .entry e' =>
        rw [parse_lines, hpl]
        simp only [List.filter_cons]
        have hp : (e'.line_num == n + (i + 1)) = false := by
          obtain ⟨w', t', _, _, _, he⟩ := parse_line_entry_shape n l e' hpl
          rw [he]
          simp only [beq_eq_false_iff_ne, ne_eq]
          omega
        rw [hp, hkey]
        exact htail
      | .skipSilent =>
        rw [parse_lines, hpl, hkey]
        exact htail
      | .warnSplit =>
        rw [parse_lines, hpl, hkey]
        exact htail
      | .warnNoMatch =>
        rw [parse_lines, hpl, hkey]
        exact htail

/-- C3: a well-formed input line (qualifying brackets, exactly two split
parts, at least one workflow group) produces exactly one `RunEntry` in
the parse output: its `ratios` has one `RatioSpec` per regex match in
left-to-right order, with `jobType` the stripped group name and `count`
the parsed digits; its `text` is the second part with trailing `¥`
stripped and then trimmed; and its line number is the 1-based position
of the line in the file. -/
theorem parse_wellformed_line (ls : List (List Char)) (i : Nat) (w t : List Char)
    (hi : i < ls.length)
    (hq : line_qualifies ls[i] = true)
    (hs : splitSep (line_content ls[i]) = [w, t])
    (hm : findall w ≠ []) :
    (parse_lines 1 ls).1.filter (fun e => e.line_num == i + 1)
      = [{ text := pyStrip (rstripYen t)
           ratios := (findall w).map (fun m => ⟨pyStrip m.1, digitsToNat m.2⟩)
           line_num := i + 1 }] := by
  have h := parse_lines_filter ls 1 i w t hi hq hs hm
  rw [Nat.add_comm 1 i] at h
  exact h

/-- Witness for C3 on the spec's own example line
`[∆\x7bsquare\x7d•2∆ ¥a cat¥]` (with job type `sq`). -/
theorem parse_wellformed_line_witness :
    (parse_lines 1 [['[', '∆', lbrace, 's', 'q', rbrace, '•', '2', '∆', ' ',
        '¥', 'a', ' ', 'c', 'a', 't', '¥', ']']]).1.filter
        (fun e => e.line_num == 0 + 1)
      = [{ text := pyStrip (rstripYen ['a', ' ', 'c', 'a', 't', '¥'])
           ratios := (findall ['∆', lbrace, 's', 'q', rbrace, '•', '2', '∆']).map
             (fun m => ⟨pyStrip m.1, digitsToNat m.2⟩)
           line_num := 0 + 1 }] :=
  parse_wellformed_line
    [['[', '∆', lbrace, 's', 'q', rbrace, '•', '2', '∆', ' ',
      '¥', 'a', ' ', 'c', 'a', 't', '¥', ']']] 0
    ['∆', lbrace, 's', 'q', rbrace, '•', '2', '∆'] ['a', ' ', 'c', 'a', 't', '¥']
    (by decide) (by decide) (by decide) (by decide)

/-! ## The submit/poll state machine (C6) -/

/-- The poll loop succeeds exactly when some attempt within the budget
sees a completed history. -/
theorem wait_for_completion_iff (histories : Nat → Option JVal) (pid : JVal) :
    ∀ (fuel i : Nat),
      wait_for_completion histories pid i fuel = true ↔
        ∃ j, j < fuel ∧ history_done (histories (i + j)) pid = true := by
  intro fuel
  induction fuel with
  | zero => intro i; simp [wait_for_completion]
  | succ fuel ih =>
    intro i
    rw [wait_for_completion]
    cases hd : history_done (histories i) pid with
    | true =>
      simp only [hd, if_true]
      constructor
      · intro _
        exact ⟨0, by omega, by simpa using hd⟩
      · intro _
        trivial
    | false =>
      simp only [hd, Bool.false_eq_true, if_false]
      rw [ih (i + 1)]
      constructor
      · rintro ⟨j, hj, hdj⟩
        refine ⟨j + 1, by omega, ?_⟩
        rw [show i + (j + 1) = i + 1 + j by omega]
        exact hdj
      · rintro ⟨j, hj, hdj⟩
        match j with
        | 0 =>
          rw [Nat.add_zero] at hdj
          rw [hdj] at hd
          cases hd
        | j + 1 =>
          refine ⟨j, by omega, ?_⟩
          rw [show i + 1 + j = i + (j + 1) by omega]
          exact hdj

/-- The line 139 test agrees with plain key membership: a non-`None`
history is "done" exactly when the job id is among its keys (a dict
containing the key is in particular truthy). -/
theorem history_done_eq_mem (h : JVal) (pid : JVal) :
    history_done (some h) pid = jkey_mem h pid := by
  unfold history_done
  match h with
  | .obj .nil => rfl
  | .obj (.cons k v tl) => simp [py_truthy]
  | .str s => simp [jkey_mem]
  | .num n => simp [jkey_mem]
  | .bool b => simp [jkey_mem, py_truthy]
  | .null => rfl
  | .arr .nil => rfl
  | .arr (.cons hd tl) => simp [jkey_mem, py_truthy]

/-- C6: per unit of work: a submission failure (`None` response, or a
falsy/`prompt_id`-less body) short-circuits to `failed` for *every*
possible poll oracle, i.e. without polling; given a successful
submission, the outcome is `completed` exactly when the job id appears
as a key of some poll response within the 600-second / 2-second-interval
budget, and `timedOut` exactly otherwise; and a transiently failing poll
attempt (a `None` history) is treated as not-yet-done — the loop simply
moves on to the next attempt. -/
theorem unit_outcome_classification :
    (∀ histories, run_unit none histories = .failed) ∧
    (∀ (r : JVal) (histories : Nat → Option JVal),
      (py_truthy r &&
        (match r with | .obj fs => fs.hasKey "prompt_id" | _ => false)) = false →
      run_unit (some r) histories = .failed) ∧
    (∀ (fs : JFields) (pid : JVal) (histories : Nat → Option JVal),
      py_truthy (.obj fs) = true →
      fs.get? "prompt_id" = some pid →
      ((run_unit (some (.obj fs)) histories = .completed ↔
          ∃ j, j < maxPolls ∧ history_done (histories j) pid = true) ∧
       (run_unit (some (.obj fs)) histories = .timedOut ↔
          ¬ ∃ j, j < maxPolls ∧ history_done (histories j) pid = true))) ∧
    (∀ (h : JVal) (pid : JVal), history_done (some h) pid = jkey_mem h pid) ∧
    (∀ (histories : Nat → Option JVal) (pid : JVal) (i fuel : Nat),
      histories i = none →
      wait_for_completion histories pid i (fuel + 1)
        = wait_for_completion histories pid (i + 1) fuel) := by
  refine ⟨fun _ => rfl, ?_, ?_, history_done_eq_mem, ?_⟩
  · intro r histories hc
    unfold run_unit
    simp [hc]
  · intro fs pid histories ht hpid
    have hk : fs.hasKey "prompt_id" = true := by
      unfold JFields.hasKey
      rw [hpid]
      rfl
    have hrun : run_unit (some (.obj fs)) histories
        = if wait_for_completion histories pid 0 maxPolls
          then .completed else .timedOut := by
      unfold run_unit
      simp only [ht, hk, Bool.and_self, if_true, hpid]
    have hiff := wait_for_completion_iff histories pid maxPolls 0
    simp only [Nat.zero_add] at hiff
    cases hw : wait_for_completion histories pid 0 maxPolls with
    | true =>
      have he := hiff.mp hw
      refine ⟨⟨fun _ => he, fun _ => by rw [hrun, hw]; rfl⟩,
              ⟨fun hco => ?_, fun hne => absurd he hne⟩⟩
      rw [hrun, hw] at hco
      simp at hco
    | false =>
      have hne : ¬ ∃ j, j < maxPolls ∧ history_done (histories j) pid = true := by
        intro hex
        rw [hiff.mpr hex] at hw
        cases hw
      refine ⟨⟨fun hco => ?_, fun hex => absurd hex hne⟩,
              ⟨fun _ => hne, fun _ => by rw [hrun, hw]; rfl⟩⟩
      rw [hrun, hw] at hco
      simp at hco
  · intro histories pid i fuel hnone
    rw [wait_for_completion, hnone]
    rfl

/-- Witness for C6: a failed submission, a response without an id, a
completing poll sequence, and a timing-out poll sequence. -/
theorem unit_outcome_classification_witness :
    run_unit none (fun _ => none) = .failed ∧
    run_unit (some (.obj .nil)) (fun _ => none) = .failed ∧
    run_unit (some (.obj (.cons "prompt_id" (.str "abc") .nil)))
        (fun _ => some (.obj (.cons "abc" (.bool true) .nil))) = .completed ∧
    run_unit (some (.obj (.cons "prompt_id" (.str "abc") .nil)))
        (fun _ => none) = .timedOut ∧
    wait_for_completion (fun _ => none) (.str "abc") 0 1
      = wait_for_completion (fun _ => none) (.str "abc") 1 0 := by
  refine ⟨unit_outcome_classification.1 (fun _ => none),
          unit_outcome_classification.2.1 (.obj .nil) (fun _ => none) rfl,
          (unit_outcome_classification.2.2.1 (.cons "prompt_id" (.str "abc") .nil)
            (.str "abc") (fun _ => some (.obj (.cons "abc" (.bool true) .nil)))
            rfl rfl).1.mpr ⟨0, by decide, rfl⟩,
          (unit_outcome_classification.2.2.1 (.cons "prompt_id" (.str "abc") .nil)
            (.str "abc") (fun _ => none) rfl rfl).2.mpr ?_,
          unit_outcome_classification.2.2.2.2 (fun _ => none) (.str "abc") 0 0 rfl⟩
  rintro ⟨j, _, hj⟩
  simp [history_done] at hj

/-! ## Heap lemmas: `json.load` allocates fresh, reads back intact (C9) -/

/-- The cell just past a prefix of the heap. -/
theorem cell_at_append (h : Heap) (c : HCell) (ext : Heap) :
    Heap.cell (h ++ [c] ++ ext) h.size = some c := by
  unfold Heap.cell Heap.size
  rw [List.append_assoc]
  rw [List.getElem?_append_right (Nat.le_refl _)]
  simp

/-- Reading a freshly boxed cell. -/
theorem readVal_box (h : Heap) (v : JVal) (ext : Heap) (fuel : Nat)
    (hf : 1 ≤ fuel) :
    readVal (h ++ [.box v] ++ ext) fuel h.size = some v := by
  match fuel, hf with
  | fuel + 1, _ =>
    simp only [readVal]
    rw [cell_at_append]

mutual
/-- `json.load` only appends cells to the heap. -/
theorem json_load_app : ∀ (v : JVal) (h : Heap), ∃ t, (json_load v h).1 = h ++ t
  | .str s, h => ⟨[.box (.str s)], rfl⟩
  | .num n, h => ⟨[.box (.num n)], rfl⟩
  | .bool b, h => ⟨[.box (.bool b)], rfl⟩
  | .null, h => ⟨[.box .null], rfl⟩
  | .arr xs, h => ⟨[.box (.arr xs)], rfl⟩
  | .obj fs, h => by
    obtain ⟨t, ht⟩ := json_load_fields_app fs h
    exact ⟨t ++ [HCell.dict (json_load_fields fs h).2],
      by show (json_load_fields fs h).1 ++ [HCell.dict (json_load_fields fs h).2] = _
         rw [ht, List.append_assoc]⟩

/-- Loading an object's fields only appends cells to the heap. -/
theorem json_load_fields_app : ∀ (fs : JFields) (h : Heap),
    ∃ t, (json_load_fields fs h).1 = h ++ t
  | .nil, h => ⟨[], by simp [json_load_fields]⟩
  | .cons k v tl, h => by
    obtain ⟨t1, h1⟩ := json_load_app v h
    obtain ⟨t2, h2⟩ := json_load_fields_app tl (json_load v h).1
    exact ⟨t1 ++ t2,
      by show (json_load_fields tl (json_load v h).1).1 = _
         rw [h2, h1, List.append_assoc]⟩
end

/-- The root address returned by `json.load` is fresh: at or above the
old heap size, and inside the new heap. -/
theorem json_load_addr (v : JVal) (h : Heap) :
    h.size ≤ (json_load v h).2 ∧ (json_load v h).2 < (json_load v h).1.size := by
  match v with
  | .str _ | .num _ | .bool _ | .null | .arr _ =>
    refine ⟨Nat.le_refl _, ?_⟩
    show h.size < (h ++ [_]).length
    simp [Heap.size]
  | .obj fs =>
    obtain ⟨t, ht⟩ := json_load_fields_app fs h
    constructor
    · show h.size ≤ (json_load_fields fs h).1.size
      rw [ht]
      simp [Heap.size]
    · show (json_load_fields fs h).1.size
        < ((json_load_fields fs h).1 ++ [HCell.dict (json_load_fields fs h).2]).length
      simp [Heap.size]

mutual
/-- Reading back a `json.load`-allocated value gives the value back,
in any extension of the allocation heap — in particular regardless of
what the heap contained before the load. -/
theorem json_load_read : ∀ (v : JVal) (h ext : Heap) (fuel : Nat),
    jdepth v ≤ fuel →
    readVal ((json_load v h).1 ++ ext) fuel (json_load v h).2 = some v
  | .str s, h, ext, fuel, hf => readVal_box h (.str s) ext fuel hf
  | .num n, h, ext, fuel, hf => readVal_box h (.num n) ext fuel hf
  | .bool b, h, ext, fuel, hf => readVal_box h (.bool b) ext fuel hf
  | .null, h, ext, fuel, hf => readVal_box h .null ext fuel hf
  | .arr xs, h, ext, fuel, hf => readVal_box h (.arr xs) ext fuel hf
  | .obj fs, h, ext, fuel, hf => by
    match fuel, hf with
    | fuel + 1, hf =>
      have hdf : jdepthF fs ≤ fuel := by
        have hj : jdepth (.obj fs) = jdepthF fs + 1 := rfl
        omega
      show readVal (((json_load_fields fs h).1 ++ [.dict (json_load_fields fs h).2]) ++ ext)
          (fuel + 1) (json_load_fields fs h).1.size = some (.obj fs)
      simp only [readVal]
      rw [cell_at_append]
      have hr := json_load_fields_read fs h
        ([HCell.dict (json_load_fields fs h).2] ++ ext) fuel hdf
      rw [← List.append_assoc] at hr
      show (readFs ((json_load_fields fs h).1 ++ [HCell.dict (json_load_fields fs h).2] ++ ext)
          fuel (json_load_fields fs h).2).map JVal.obj = some (JVal.obj fs)
      rw [hr]
      rfl

/-- Reading back `json.load`-allocated fields gives the fields back. -/
theorem json_load_fields_read : ∀ (fs : JFields) (h ext : Heap) (fuel : Nat),
    jdepthF fs ≤ fuel →
    readFs ((json_load_fields fs h).1 ++ ext) fuel (json_load_fields fs h).2 = some fs
  | .nil, h, ext, fuel, _ => by
    show readFs (h ++ ext) fuel [] = some .nil
    simp [readFs]
  | .cons k v tl, h, ext, fuel, hf => by
    have hmax : jdepthF (.cons k v tl) = max (jdepth v) (jdepthF tl) := rfl
    have hdv : jdepth v ≤ fuel := by omega
    have hdt : jdepthF tl ≤ fuel := by omega
    obtain ⟨t2, ht2⟩ := json_load_fields_app tl (json_load v h).1
    have hv := json_load_read v h (t2 ++ ext) fuel hdv
    have htl := json_load_fields_read tl (json_load v h).1 ext fuel hdt
    rw [ht2, List.append_assoc] at htl
    show readFs ((json_load_fields tl (json_load v h).1).1 ++ ext) fuel
        ((k, (json_load v h).2) :: (json_load_fields tl (json_load v h).1).2)
      = some (.cons k v tl)
    rw [ht2, List.append_assoc]
    simp only [readFs]
    rw [hv, htl]
end

/-! ## Size monotonicity of the in-place materializer (C9) -/

theorem heap_set_text_size (h : Heap) (nf : List (String × Nat)) (p : String) :
    h.size ≤ (heap_set_text h nf p).size := by
  unfold heap_set_text
  cases hfind : assocFind nf "inputs" with
  | none => exact Nat.le_refl _
  | some ai =>
    show h.size ≤ Heap.size (match h.cell ai with
      | some (.dict inf) =>
        (h ++ [HCell.box (.str p)]).set ai (.dict (assocSet inf "text" h.size))
      | _ => h)
    cases hcell : h.cell ai with
    | none => exact Nat.le_refl _
    | some c =>
      cases c with
      | box _ => exact Nat.le_refl _
      | dict inf =>
        show h.size ≤ Heap.size ((h ++ [HCell.box (.str p)]).set ai
          (.dict (assocSet inf "text" h.size)))
        unfold Heap.size
        rw [List.length_set, List.length_append]
        exact Nat.le_add_right _ _

theorem heap_set_seed_size (h : Heap) (nf : List (String × Nat)) (s : Int) :
    h.size ≤ (heap_set_seed h nf s).size := by
  unfold heap_set_seed
  cases hfind : assocFind nf "inputs" with
  | none => exact Nat.le_refl _
  | some ai =>
    show h.size ≤ Heap.size (match h.cell ai with
      | some (.dict inf) =>
        (h ++ [HCell.box (.num s)]).set ai (.dict (assocSet inf "seed" h.size))
      | _ => h)
    cases hcell : h.cell ai with
    | none => exact Nat.le_refl _
    | some c =>
      cases c with
      | box _ => exact Nat.le_refl _
      | dict inf =>
        show h.size ≤ Heap.size ((h ++ [HCell.box (.num s)]).set ai
          (.dict (assocSet inf "seed" h.size)))
        unfold Heap.size
        rw [List.length_set, List.length_append]
        exact Nat.le_add_right _ _

theorem heap_update_node_size (h : Heap) (a : Nat) (p : String) (s : Int) :
    h.size ≤ (heap_update_node h a p s).size := by
  unfold heap_update_node
  cases hcell : h.cell a with
  | none => exact Nat.le_refl _
  | some c =>
    cases c with
    | box _ => exact Nat.le_refl _
    | dict nf =>
      have h1 : h.size ≤ (if heap_clip_cond h nf then heap_set_text h nf p else h).size := by
        by_cases hc : heap_clip_cond h nf
        · simp only [hc, if_true]
          exact heap_set_text_size h nf p
        · simp only [hc, if_false]
          exact Nat.le_refl _
      by_cases hk : heap_ks_cond (if heap_clip_cond h nf then heap_set_text h nf p else h) nf
      · simp only [hk, if_true]
        exact Nat.le_trans h1 (heap_set_seed_size _ nf s)
      · simp only [hk, if_false]
        exact h1

theorem heap_update_values_size (p : String) (seeds : Nat → Int) :
    ∀ (ns : List (String × Nat)) (i : Nat) (h : Heap),
      h.size ≤ (heap_update_values p seeds ns i h).size := by
  intro ns
  induction ns with
  | nil => intro i h; exact Nat.le_refl _
  | cons n tl ih =>
    intro i h
    exact Nat.le_trans (heap_update_node_size h n.2 p (seeds i)) (ih _ _)

theorem heap_update_workflow_size (h : Heap) (root : Nat) (p : String)
    (seeds : Nat → Int) : h.size ≤ (heap_update_workflow h root p seeds).size := by
  unfold heap_update_workflow
  cases hcell : h.cell root with
  | none => exact Nat.le_refl _
  | some c =>
    cases c with
    | box _ => exact Nat.le_refl _
    | dict nodes => exact heap_update_values_size p seeds nodes 0 h

/-- C9: two resolves of the same job type are logically independent
instances.  Resolve the template, materialize the copy in place (writing
text and seed cells), then resolve again: the second instance reads back
as the original, unmutated template; its root cell lies in a region of
the heap strictly beyond the entire first instance and beyond every cell
the materializer touched, so no mutation of one materialized job can be
seen through another resolve.  The registry itself (a pure name-to-
document map, re-read from disk on every `load_workflow`) is never
written by materialization. -/
theorem resolve_instances_independent (reg : String → Option JVal) (wt : String)
    (tpl : JVal) (h0 : Heap) (prompt : String) (seeds : Nat → Int)
    (hreg : reg wt = some tpl)
    (p1 : Heap × Nat) (hp1 : load_workflow reg wt h0 = some p1)
    (p2 : Heap × Nat)
    (hp2 : load_workflow reg wt (heap_update_workflow p1.1 p1.2 prompt seeds)
      = some p2) :
    readVal p2.1 (jdepth tpl) p2.2 = some tpl ∧
    h0.size ≤ p1.2 ∧ p1.2 < p1.1.size ∧
    p1.1.size ≤ (heap_update_workflow p1.1 p1.2 prompt seeds).size ∧
    (heap_update_workflow p1.1 p1.2 prompt seeds).size ≤ p2.2 ∧
    p2.2 < p2.1.size := by
  unfold load_workflow at hp1 hp2
  rw [hreg] at hp1 hp2
  simp only [Option.map_some'] at hp1 hp2
  injection hp1 with hp1
  injection hp2 with hp2
  subst hp1
  have hread := json_load_read tpl
    (heap_update_workflow (json_load tpl h0).1 (json_load tpl h0).2 prompt seeds)
    [] (jdepth tpl) (Nat.le_refl _)
  rw [List.append_nil] at hread
  have ha0 := json_load_addr tpl h0
  have ha2 := json_load_addr tpl
    (heap_update_workflow (json_load tpl h0).1 (json_load tpl h0).2 prompt seeds)
  subst hp2
  exact ⟨hread, ha0.1, ha0.2,
    heap_update_workflow_size _ _ prompt seeds, ha2.1, ha2.2⟩

/-- Witness for C9: a one-node `KSampler` template resolved, mutated in
place, and resolved again. -/
theorem resolve_instances_independent_witness :
    readVal (json_load sample_tpl
        (heap_update_workflow (json_load sample_tpl []).1 (json_load sample_tpl []).2
          "p" (fun _ => 7))).1
      (jdepth sample_tpl)
      (json_load sample_tpl
        (heap_update_workflow (json_load sample_tpl []).1 (json_load sample_tpl []).2
          "p" (fun _ => 7))).2
      = some sample_tpl :=
  (resolve_instances_independent
    (fun s => if s = "w" then some sample_tpl else none) "w" sample_tpl
    [] "p" (fun _ => 7) rfl
    (json_load sample_tpl []) rfl
    (json_load sample_tpl
      (heap_update_workflow (json_load sample_tpl []).1 (json_load sample_tpl []).2
        "p" (fun _ => 7))) rfl).1

end BatchV2
